import Mathlib

namespace Vault

/-- Characters treated as whitespace by Python's `str.strip` (ASCII fragment). -/
def isSpaceChar (c : Char) : Bool :=
  c = ' ' || c = '\t' || c = '\n' || c = '\r' || c = Char.ofNat 11 || c = Char.ofNat 12

/-- A word character in the sense of the regex class `\w` (ASCII fragment). -/
def isWordChar (c : Char) : Bool :=
  c.isAlphanum || c = '_'

/-- A character kept by `re.sub(r"[^a-z0-9]", "", ...)`. -/
def isLowerAlnumChar (c : Char) : Bool :=
  c.isLower || c.isDigit

/-- Python `str.lower` (ASCII fragment, matching the repository's inputs). -/
def lower (s : List Char) : List Char :=
  s.map Char.toLower

/-- Python `str.strip()`: drop leading and trailing whitespace. -/
def strip (s : List Char) : List Char :=
  ((s.dropWhile isSpaceChar).reverse.dropWhile isSpaceChar).reverse

/-- Split a character list at every character satisfying `sep`, keeping empty
pieces, as Python `str.split(sep)` and `re.split` with a single-character
class do.  `re.split(r"\W+", s)` differs only by the empty pieces produced by
adjacent separators, which every caller in the source discards through its
minimum-length filter. -/
def pysplit (sep : Char → Bool) : List Char → List (List Char)
  | [] => [[]]
  | c :: rest =>
    if sep c then
      [] :: pysplit sep rest
    else
      match pysplit sep rest with
      | [] => [[c]]
      | piece :: more => (c :: piece) :: more

/-- `re.split(r"\W+", s)` up to empty pieces (see `pysplit`). -/
def splitWords (s : List Char) : List (List Char) :=
  pysplit (fun c => !isWordChar c) s

/-- Insert `x` into `l` directly before the first element whose key is at most
`key x`.  Helper for `sortDesc`. -/
def insertDesc (key : α → Nat) (x : α) : List α → List α
  | [] => [x]
  | y :: ys => if key x < key y then y :: insertDesc key x ys else x :: y :: ys

/-- Stable sort, highest key first.  A stable sort's output is uniquely
determined by the key order and the input order, so this models Python's
stable `list.sort(key=..., reverse=True)` (and the stable descending order of
`Counter.most_common`). -/
def sortDesc (key : α → Nat) : List α → List α
  | [] => []
  | x :: xs => insertDesc key x (sortDesc key xs)

/-- Helper for `firstOccur`: keep elements not yet seen. -/
def firstOccurAux (seen : List (List Char)) : List (List Char) → List (List Char)
  | [] => []
  | x :: xs =>
    if x ∈ seen then firstOccurAux seen xs
    else x :: firstOccurAux (seen ++ [x]) xs

/-- First-occurrence deduplication: the order in which `collections.Counter`
first encounters each distinct element. -/
def firstOccur (l : List (List Char)) : List (List Char) :=
  firstOccurAux [] l

/-- A note as the Memory engine sees it: primary key, title, content, and the
raw comma-separated tags column. -/
structure PyNote where
  id : Int
  title : List Char
  content : List Char
  tags : List Char
deriving DecidableEq, Repr

/-- `_split_tags`: split the raw tags column on commas, strip each piece,
drop blanks. -/
def _split_tags (raw : List Char) : List (List Char) :=
  if raw = [] then []
  else
    (pysplit (fun c => c = ',') raw).filterMap
      (fun tag => if tag ≠ [] ∧ strip tag ≠ [] then some (strip tag) else none)

/-- Python `sep.join(pieces)`. -/
def pyjoin (sep : List Char) : List (List Char) → List Char
  | [] => []
  | [t] => t
  | t :: ts => t ++ sep ++ pyjoin sep ts

/-- One iteration of the cleaning loop in `_serialize_tags`. -/
def serializeStep (cleaned : List (List Char)) (tag : List Char) : List (List Char) :=
  let tag := lower (strip tag)
  let tag := if tag = [] ∨ ' ' ∈ tag then tag.filter (fun c => c ≠ ' ') else tag
  if tag ≠ [] ∧ tag ∉ cleaned then cleaned ++ [tag] else cleaned

/-- `_serialize_tags`: strip/lowercase each tag, drop spaces, de-duplicate,
cap at 5, and join with commas. -/
def _serialize_tags (tags : List (List Char)) : List Char :=
  pyjoin [','] ((tags.foldl serializeStep []).take 5)

/-- `MemoryEngine._normalize_token`: the two ordered suffix rules. -/
def _normalize_token (token : List Char) : List Char :=
  if ['i', 'e', 's'] <:+ token ∧ token.length > 4 then
    token.take (token.length - 3) ++ ['y']
  else if ['s'] <:+ token ∧ token.length > 3 then
    token.take (token.length - 1)
  else
    token

/-- `MemoryEngine._tokenize`: split on non-word runs, lowercase, drop raw
tokens shorter than 3 characters, normalize, and collect into a set. -/
def _tokenize (text : List Char) : Finset (List Char) :=
  (((splitWords (lower text)).filter (fun raw => 3 ≤ raw.length)).map _normalize_token).toFinset

/-- `MemoryEngine._tag_tokens`: the comparison set of a note — normalized
stems of its tags when it has any, tokens of title and content otherwise. -/
def _tag_tokens (note : PyNote) : Finset (List Char) :=
  let tags := _split_tags note.tags
  if tags ≠ [] then
    ((tags.filter (fun tag => 3 ≤ tag.length)).map _normalize_token).toFinset
  else
    _tokenize (note.title ++ [' '] ++ note.content)

/-- The match list built by the loop in `_local_tag_search`, in note order:
each note's overlap score with the question, zero scores discarded. -/
def localMatches (question : List Char) (notes : List PyNote) : List (Nat × PyNote) :=
  let question_tokens := _tokenize question
  notes.filterMap (fun note =>
    let score := (question_tokens ∩ _tag_tokens note).card
    if score ≠ 0 then some (score, note) else none)

/-- `MemoryEngine._local_tag_search`: score notes by token overlap with the
question, drop zero scores, stable-sort highest score first, truncate. -/
def _local_tag_search (question : List Char) (notes : List PyNote) (limit : Nat) :
    List (Nat × PyNote) :=
  let question_tokens := _tokenize question
  if question_tokens = ∅ then []
  else (sortDesc (fun m => m.1) (localMatches question notes)).take limit

/-- The tokens of `title + " " + content` kept by `_fallback_tags`:
word runs of the lowercased text of length at least 3. -/
def fallbackTokens (note : PyNote) : List (List Char) :=
  (splitWords (lower (note.title ++ [' '] ++ note.content))).filter
    (fun token => 3 ≤ token.length)

/-- `MemoryEngine._fallback_tags`: most frequent tokens of title and content
(`Counter.most_common(5)`: count descending, first-seen order on ties), or
the single tag "note" when no token qualifies. -/
def _fallback_tags (note : PyNote) : List (List Char) :=
  let tokens := fallbackTokens note
  if tokens = [] then ["note".toList]
  else (sortDesc (fun word => tokens.count word) (firstOccur tokens)).take 5

/-- The loop body of `_title_tokens`: clean a raw token down to `[a-z0-9]`,
keep it when it is long enough and new. -/
def titleTokenStep (tokens : List (List Char)) (raw : List Char) : List (List Char) :=
  let cleaned := raw.filter isLowerAlnumChar
  if cleaned.length < 3 then tokens
  else if cleaned ∈ tokens then tokens
  else tokens ++ [cleaned]

/-- `MemoryEngine._title_tokens`: de-duplicated `[a-z0-9]` tokens of the
lowercased title, at most 5, first-seen order. -/
def _title_tokens (note : PyNote) : List (List Char) :=
  let title := lower (strip note.title)
  if title = [] then []
  else ((splitWords title).foldl titleTokenStep []).take 5

/-- `MemoryEngine._sanitize_tag`: strip, lowercase, keep `[a-z0-9]`, require
length at least 3. -/
def _sanitize_tag (value : List Char) : Option (List Char) :=
  let tag := (lower (strip value)).filter isLowerAlnumChar
  if tag.length < 3 then none else some tag

/-- `MemoryEngine._extract_tags`: split a remote reply on commas and
newlines, sanitize each candidate, cap at 5. -/
def _extract_tags (text : List Char) : List (List Char) :=
  ((pysplit (fun c => c = ',' || c = '\n') text).filterMap _sanitize_tag).take 5

/-- `MemoryEngine._generate_tags`.  The remote path is abstracted by its
observable outcome: `some text` is a remote reply (its tags are used when
nonempty), `none` covers an unavailable model or a raised exception; either
failure mode falls through to `_fallback_tags`. -/
def _generate_tags (note : PyNote) (remoteText : Option (List Char)) : List (List Char) :=
  match remoteText with
  | some text =>
    let tags := _extract_tags text
    if tags ≠ [] then tags else _fallback_tags note
  | none => _fallback_tags note

/-- `MemoryEngine.ensure_tags`: title tokens first, then the generated tags
not already present, serialized and persisted on the note's tags column. -/
def ensure_tags (note : PyNote) (remoteText : Option (List Char)) : PyNote :=
  let tags := _generate_tags note remoteText
  let title_tokens := _title_tokens note
  let tags := title_tokens ++ tags.filter (fun tag => tag ∉ title_tokens)
  let serialized := _serialize_tags tags
  { note with tags := serialized }

/-- Python `str.rstrip()`: drop trailing whitespace. -/
def rstrip (s : List Char) : List Char :=
  (s.reverse.dropWhile isSpaceChar).reverse

/-- The left-brace character, U+007B. -/
def lbrace : Char := Char.ofNat 123

/-- The right-brace character, U+007D. -/
def rbrace : Char := Char.ofNat 125

/-- A JSON value as decoded by `json.loads`.  Numbers are modeled as
integers: the repository's structured replies carry only integer ids. -/
inductive Json where
  | null : Json
  | bool (b : Bool) : Json
  | num (n : Int) : Json
  | str (s : List Char) : Json
  | arr (items : List Json) : Json
  | obj (members : List (List Char × Json)) : Json
deriving Repr

/-- JSON insignificant whitespace. -/
def skipWs (s : List Char) : List Char :=
  s.dropWhile (fun c => c = ' ' || c = '\t' || c = '\n' || c = '\r')

/-- Decimal digits to a natural number. -/
def digitsToNat (ds : List Char) : Nat :=
  ds.foldl (fun acc c => 10 * acc + (c.toNat - 48)) 0

/-- Body of a JSON string after the opening quote; returns the decoded
content and the remainder after the closing quote.  The common escapes are
decoded; `\uXXXX` escapes are not modeled (the repository never feeds them). -/
def parseStringBody : List Char → Option (List Char × List Char)
  | [] => none
  | c :: rest =>
    if c = '"' then some ([], rest)
    else if c = '\\' then
      match rest with
      | [] => none
      | e :: rest' =>
        let decoded :=
          if e = 'n' then '\n'
          else if e = 't' then '\t'
          else if e = 'r' then '\r'
          else if e = 'b' then Char.ofNat 8
          else if e = 'f' then Char.ofNat 12
          else e
        (parseStringBody rest').map (fun p => (decoded :: p.1, p.2))
    else (parseStringBody rest).map (fun p => (c :: p.1, p.2))

mutual

/-- Recursive-descent JSON value parser (model of `json.loads`), fueled. -/
def parseValue : Nat → List Char → Option (Json × List Char)
  | 0, _ => none
  | fuel + 1, s =>
    match skipWs s with
    | [] => none
    | c :: rest =>
      if c = '"' then
        (parseStringBody rest).map (fun p => (Json.str p.1, p.2))
      else if c = lbrace then
        match skipWs rest with
        | d :: rest' =>
          if d = rbrace then some (Json.obj [], rest')
          else (parseMembers fuel (d :: rest')).map (fun p => (Json.obj p.1, p.2))
        | [] => none
      else if c = '[' then
        match skipWs rest with
        | d :: rest' =>
          if d = ']' then some (Json.arr [], rest')
          else (parseElements fuel (d :: rest')).map (fun p => (Json.arr p.1, p.2))
        | [] => none
      else if c = 't' then
        if "rue".toList <+: rest then some (Json.bool true, rest.drop 3) else none
      else if c = 'f' then
        if "alse".toList <+: rest then some (Json.bool false, rest.drop 4) else none
      else if c = 'n' then
        if "ull".toList <+: rest then some (Json.null, rest.drop 3) else none
      else if c = '-' then
        let ds := rest.takeWhile Char.isDigit
        if ds = [] then none
        else some (Json.num (-(Int.ofNat (digitsToNat ds))), rest.drop ds.length)
      else if c.isDigit then
        let ds := (c :: rest).takeWhile Char.isDigit
        some (Json.num (Int.ofNat (digitsToNat ds)), (c :: rest).drop ds.length)
      else none

/-- Members of a JSON object after the opening brace (at least one pair). -/
def parseMembers : Nat → List Char → Option (List (List Char × Json) × List Char)
  | 0, _ => none
  | fuel + 1, s =>
    match skipWs s with
    | c :: rest =>
      if c = '"' then
        match parseStringBody rest with
        | some (key, afterKey) =>
          match skipWs afterKey with
          | colon :: afterColon =>
            if colon = ':' then
              match parseValue fuel afterColon with
              | some (v, afterVal) =>
                match skipWs afterVal with
                | d :: rest' =>
                  if d = ',' then
                    (parseMembers fuel rest').map (fun p => ((key, v) :: p.1, p.2))
                  else if d = rbrace then some ([(key, v)], rest')
                  else none
                | [] => none
              | none => none
            else none
          | [] => none
        | none => none
      else none
    | [] => none

/-- Elements of a JSON array after the opening bracket (at least one). -/
def parseElements : Nat → List Char → Option (List Json × List Char)
  | 0, _ => none
  | fuel + 1, s =>
    match parseValue fuel s with
    | some (v, afterVal) =>
      match skipWs afterVal with
      | d :: rest' =>
        if d = ',' then
          (parseElements fuel rest').map (fun p => (v :: p.1, p.2))
        else if d = ']' then some ([v], rest')
        else none
      | [] => none
    | none => none

end

/-- Model of `json.loads`: parse one value, reject trailing garbage. -/
def json_loads (s : List Char) : Option Json :=
  match parseValue (2 * s.length + 4) s with
  | some (v, rest) => if skipWs rest = [] then some v else none
  | none => none

/-- The span matched by `re.search(r"\x7b.*\x7d", text, re.S)`: from the
first left brace to the last right brace, if the latter comes after the
former (the greedy `.*` with DOTALL reaches the last closing brace). -/
def findBraceSpan (text : List Char) : Option (List Char) :=
  let i := text.findIdx (fun c => c = lbrace)
  let rj := text.reverse.findIdx (fun c => c = rbrace)
  if i < text.length ∧ rj < text.length ∧ i < text.length - 1 - rj then
    some ((text.drop i).take (text.length - 1 - rj - i + 1))
  else none

/-- The two exception classes that can escape the parsing layer:
`json.JSONDecodeError` (whose text triggers none of the friendly-message
patterns) and `RuntimeError` with its message. -/
inductive PyErr where
  | jsonDecode : PyErr
  | runtime (msg : List Char) : PyErr
deriving Repr

/-- The text `str(exc)` of an exception, as consumed by
`_friendly_error_message`.  A `JSONDecodeError`'s text ("Expecting value:
line 1 column 1 (char 0)", etc.) contains none of the matched patterns, so
any such placeholder is equivalent there. -/
def pyErrText : PyErr → List Char
  | .jsonDecode => "Expecting value".toList
  | .runtime msg => msg

/-- `MemoryEngine._parse_model_json`: direct decode of the stripped text,
then decode of the first-to-last brace span; blank input and a missing span
raise `RuntimeError`, a failing span decode propagates `JSONDecodeError`. -/
def _parse_model_json (response : List Char) : Except PyErr Json :=
  let text := strip response
  if text = [] then .error (.runtime "Empty response from Gemini".toList)
  else
    match json_loads text with
    | some data => .ok data
    | none =>
      match findBraceSpan text with
      | some span =>
        match json_loads span with
        | some data => .ok data
        | none => .error .jsonDecode
      | none => .error (.runtime "Could not parse Gemini response".toList)

/-- Fueled scan for `re.findall(r"\[(\d+)\]", text)`. -/
def extractBracketIdsAux : Nat → List Char → List Int
  | 0, _ => []
  | _, [] => []
  | fuel + 1, c :: rest =>
    if c = '[' then
      let ds := rest.takeWhile Char.isDigit
      let after := rest.drop ds.length
      if ds ≠ [] ∧ after.head? = some ']' then
        Int.ofNat (digitsToNat ds) :: extractBracketIdsAux fuel (after.drop 1)
      else extractBracketIdsAux fuel rest
    else extractBracketIdsAux fuel rest

/-- `MemoryEngine._extract_ids_from_text`: bracketed integers first; when
none, standalone digit runs of one to four digits (`\b(\d{1,4})\b`). -/
def _extract_ids_from_text (text : List Char) : List Int :=
  let ids := extractBracketIdsAux text.length text
  if ids ≠ [] then ids
  else
    ((splitWords text).filter
        (fun w => w ≠ [] ∧ w.all Char.isDigit ∧ w.length ≤ 4)).map
      (fun w => Int.ofNat (digitsToNat w))

/-- Truthiness of a decoded JSON value under Python's `bool(...)`. -/
def pyTruthy : Json → Bool
  | .null => false
  | .bool b => b
  | .num n => n ≠ 0
  | .str s => s ≠ []
  | .arr items => !items.isEmpty
  | .obj members => !members.isEmpty

/-- Dictionary lookup on a decoded JSON object (`dict.get`); `json.loads`
keeps the last of duplicate keys, hence the reversed search. -/
def jsonGet (j : Json) (key : List Char) : Option Json :=
  match j with
  | .obj members => (members.reverse.find? (fun m => m.1 = key)).map (fun m => m.2)
  | _ => none

/-- Python `int(value)` on a decoded string: optional sign and digits.
(Underscore digit grouping is not modeled; the repository never produces
it.) -/
def pyIntOfString (s : List Char) : Option Int :=
  let t := strip s
  match t with
  | '-' :: ds =>
    if ds ≠ [] ∧ ds.all Char.isDigit then some (-(Int.ofNat (digitsToNat ds))) else none
  | '+' :: ds =>
    if ds ≠ [] ∧ ds.all Char.isDigit then some (Int.ofNat (digitsToNat ds)) else none
  | ds =>
    if ds ≠ [] ∧ ds.all Char.isDigit then some (Int.ofNat (digitsToNat ds)) else none

/-- `MemoryEngine._coerce_int`: `int(value)` returning `None` instead of
raising (`TypeError`/`ValueError` are swallowed). -/
def _coerce_int : Json → Option Int
  | .num n => some n
  | .str s => pyIntOfString s
  | .bool b => some (if b then 1 else 0)
  | _ => none

/-- The transient parse result `{ids, answer, reason}` consumed by `ask`
(`RemoteSelection` of the specification). -/
structure RemoteSelection where
  ids : List Int
  answer : Option Json
  reason : Option Json
deriving Repr

/-- The `ids` coercion of `_remote_answer_with_metadata`: element-wise
`_coerce_int` over `data.get("ids", [])`, dropping `None`s.  Iterating a
string yields its characters; iterating any other non-list raises. -/
def remoteIds (data : Json) : Except PyErr (List Int) :=
  match jsonGet data "ids".toList with
  | none => .ok []
  | some (.arr items) => .ok ((items.map _coerce_int).reduceOption)
  | some (.str s) => .ok ((s.map (fun c => pyIntOfString [c])).reduceOption)
  | some _ => .error (.runtime "TypeError: not iterable".toList)

/-- The parsing stage of `MemoryEngine._remote_answer_with_metadata`, given
the remote response text: structured parse with id coercion, with the
heuristic id extraction on `RuntimeError`.  Calling `.get` on a decoded
non-object raises `AttributeError` (a `RuntimeError`-shaped model error
whose text matches no friendly pattern). -/
def parseRemoteReply (text : List Char) : Except PyErr RemoteSelection :=
  match _parse_model_json text with
  | .ok data =>
    match data with
    | .obj _ =>
      match remoteIds data with
      | .ok ids => .ok ⟨ids, jsonGet data "answer".toList, jsonGet data "reason".toList⟩
      | .error e => .error e
    | _ => .error (.runtime "AttributeError: get".toList)
  | .error (.runtime msg) =>
    let ids := _extract_ids_from_text text
    if ids ≠ [] then .ok ⟨ids, some (.str (strip text)), none⟩
    else .error (.runtime msg)
  | .error .jsonDecode => .error .jsonDecode

/-- `MemoryEngine._friendly_error_message`: map an exception's text to one
of the three user-facing messages.  `modelName` is the configured
`GEMINI_MODEL_NAME`. -/
def _friendly_error_message (modelName : List Char) (excText : List Char) : List Char :=
  if "not found".toList <:+: excText ∧ "models/".toList <:+: excText then
    "Gemini couldn\x27t find the configured model (".toList ++ modelName ++
      "). Update GEMINI_MODEL_NAME or switch to `gemini-2.5-flash-lite`. Showing local recall instead.".toList
  else if "API key".toList <:+: excText ∨ "permission".toList <:+: lower excText then
    "Gemini rejected the request. Double-check GEMINI_API_KEY permissions. Showing local recall instead.".toList
  else
    "Gemini was unavailable, so Memory shared local recall instead.".toList

/-- Decimal rendering of a note id for interpolated strings. -/
def intChars (i : Int) : List Char :=
  (toString i).toList

/-- The payload dictionary returned by `MemoryEngine.ask`.  `message` holds a
decoded JSON value because the remote `reason` field is stored unconverted. -/
structure AskPayload where
  status : List Char
  answer : Option (List Char)
  mode : Option (List Char)
  message : Option Json
deriving Repr

/-- Result of `ask`, together with whether the Remote Model Client was
invoked (`model.generate_content` reached). -/
structure AskOutcome where
  payload : AskPayload
  remoteCalled : Bool
deriving Repr

/-- `payload.setdefault("message", msg)`. -/
def setdefaultMessage (p : AskPayload) (msg : Json) : AskPayload :=
  match p.message with
  | none => { p with message := some msg }
  | some _ => p

/-- `MemoryEngine._format_answer_from_notes`: the fixed miss message, or a
bulleted list of up to five notes with title, tags and truncated preview. -/
def _format_answer_from_notes (notes : List PyNote) : List Char :=
  if notes = [] then
    ("Memory couldn\x27t link that question to a note yet. Try a different keyword " ++
      "or capture the details in a note first.").toList
  else
    "Here\x27s what surfaced:\n".toList ++
      pyjoin ['\n'] ((notes.take 5).map (fun note =>
        let title := if note.title = [] then "Untitled".toList else strip note.title
        let preview_source := let c := strip note.content; if c = [] then title else c
        let preview := preview_source.map (fun ch => if ch = '\n' then ' ' else ch)
        let preview :=
          if 160 < preview.length then rstrip (preview.take 157) ++ "...".toList
          else preview
        let tag_list := _split_tags note.tags
        let tags_display :=
          if tag_list ≠ [] then " #".toList ++ pyjoin " #".toList tag_list
          else []
        "- [".toList ++ intChars note.id ++ "] ".toList ++ title ++ tags_display ++
          " — ".toList ++ preview))

/-- `MemoryEngine._build_local_response`. -/
def _build_local_response (notes : List PyNote) (error : Option (List Char)) : AskPayload :=
  let answer := _format_answer_from_notes notes
  match error with
  | some msg => ⟨"error".toList, some answer, some "local".toList, some (.str msg)⟩
  | none => ⟨"ok".toList, some answer, some "local".toList, none⟩

/-- `MemoryEngine._tag_lines` with `include_preview=True`: one listing line
per note that has at least one tag. -/
def _tag_lines (notes : List PyNote) : List Char :=
  pyjoin ['\n'] (notes.filterMap (fun note =>
    let tags := _split_tags note.tags
    if tags = [] then none
    else
      let t0 := if note.title = [] then "Untitled".toList else note.title
      let t1 := strip t0
      let title := if t1 = [] then "Untitled".toList else t1
      let short_title := title.take 60
      let preview := (strip note.content).map (fun c => if c = '\n' then ' ' else c)
      let preview :=
        if 140 < preview.length then rstrip (preview.take 137) ++ "...".toList
        else preview
      some ("[".toList ++ intChars note.id ++ "] ".toList ++ short_title ++
        " | tags: ".toList ++ pyjoin ", ".toList tags ++
        " | preview: ".toList ++ (if preview = [] then "(empty)".toList else preview))))

/-- The instruction prompt of `_remote_answer_with_metadata`. -/
def remotePrompt (question : List Char) (tag_lines : List Char) : List Char :=
  ("You are Memory, the built-in second brain for the Vault notes app. " ++
    "Each entry below includes a note id, title, tags, and a preview excerpt pulled from the note body. " ++
    "Identify the entries that directly answer the user\x27s question and craft a concrete reply. If the preview lists items, echo the relevant ones back as bullets or short phrases. " ++
    "Always cite note ids in brackets (e.g., [3]) when referencing details. Keep the tone concise, warm, and proactive. " ++
    "If information looks incomplete, point that out and suggest capturing more detail. " ++
    "Respond with JSON: \x7b\"ids\":[numbers],\"answer\":\"final reply\",\"reason\":\"optional note\"\x7d. " ++
    "When nothing matches, return an empty ids array and clearly explain why in the answer." ++
    "\n\nEntries:\n").toList ++ tag_lines ++ "\n\nQuestion: ".toList ++ question ++ "\nJSON:".toList

/-- `MemoryEngine._notes_by_ids`: resolve ids against the loaded notes
(last note wins in the dictionary, as in the comprehension), keep order,
drop unknown ids and duplicates (peewee models compare by primary key). -/
def _notes_by_ids (notes : List PyNote) (ids : List Int) : List PyNote :=
  ids.foldl
    (fun ordered note_id =>
      match notes.reverse.find? (fun n => n.id = note_id) with
      | some note =>
        if ordered.any (fun n => n.id == note.id) then ordered else ordered ++ [note]
      | none => ordered)
    []

/-- `result.get("answer", "").strip()`: a missing answer defaults to the
empty string; a non-string answer has no `.strip` and raises. -/
def remoteAnswerText (sel : RemoteSelection) : Except PyErr (List Char)  :=
  match sel.answer with
  | none => .ok []
  | some (.str s) => .ok (strip s)
  | some _ => .error (.runtime "AttributeError: strip".toList)

/-- The `except` handler of `ask`'s remote attempt: log, run local recall,
and answer with the friendly error message. -/
def askCatch (question : List Char) (notes : List PyNote) (modelName : List Char)
    (excText : List Char) : AskPayload :=
  let found := (_local_tag_search question notes 5).map (fun m => m.2)
  _build_local_response found (some (_friendly_error_message modelName excText))

/-- The `try` block of `ask` when a remote model is configured.  `generate`
abstracts `model.generate_content` composed with `_response_text`: it maps a
prompt to the reply text or to the text of a raised exception.  Returns the
payload (`none` when the block falls through to the local path) and whether
the remote client was invoked. -/
def askRemoteAttempt (question : List Char) (notes : List PyNote)
    (generate : List Char → Except (List Char) (List Char)) (modelName : List Char) :
    Option AskPayload × Bool :=
  let tag_lines := _tag_lines notes
  if tag_lines = [] then
    (some (askCatch question notes modelName "Memory index is empty".toList), false)
  else
    match generate (remotePrompt question tag_lines) with
    | .error excText => (some (askCatch question notes modelName excText), true)
    | .ok text =>
      match parseRemoteReply text with
      | .error e => (some (askCatch question notes modelName (pyErrText e)), true)
      | .ok sel =>
        match remoteAnswerText sel with
        | .error e => (some (askCatch question notes modelName (pyErrText e)), true)
        | .ok answer_text =>
          let matched := _notes_by_ids notes sel.ids
          let (matched, reason) :=
            if matched = [] then
              let m := (_local_tag_search question notes 5).map (fun p => p.2)
              let reasonFalsy :=
                match sel.reason with
                | none => true
                | some r => !pyTruthy r
              if m ≠ [] ∧ reasonFalsy = true then
                (m, some (Json.str
                  "Gemini returned no matches, so Memory surfaced the closest tags locally.".toList))
              else (m, sel.reason)
            else (matched, sel.reason)
          if answer_text ≠ [] then
            let payload : AskPayload := ⟨"ok".toList, some answer_text, some "gemini".toList, none⟩
            let payload :=
              match reason with
              | some r => if pyTruthy r then { payload with message := some r } else payload
              | none => payload
            (some payload, true)
          else if matched ≠ [] then
            let payload : AskPayload :=
              ⟨"ok".toList, some (_format_answer_from_notes matched), some "local".toList, none⟩
            let payload :=
              match reason with
              | some r => if pyTruthy r then setdefaultMessage payload r else payload
              | none => payload
            (some payload, true)
          else (none, true)

/-- `MemoryEngine.ask`.  `notes` is the repository's most-recent-first note
list (`_ordered_notes`); `model` is the configured Remote Model Client, if
any; `geminiKeySet` and `genaiInstalled` drive the informational messages of
the local-only path; `modelName` is `GEMINI_MODEL_NAME`. -/
def ask (question : List Char) (notes : List PyNote)
    (model : Option (List Char → Except (List Char) (List Char)))
    (geminiKeySet genaiInstalled : Bool) (modelName : List Char) : AskOutcome :=
  let question := strip question
  if question = [] then
    ⟨⟨"error".toList, none, none,
      some (.str "Ask a question before invoking Memory.".toList)⟩, false⟩
  else if notes = [] then
    ⟨⟨"ok".toList,
      some "Your vault is empty so far. Capture a note and Memory will start indexing it.".toList,
      some "local".toList, none⟩, false⟩
  else
    let remoteResult :=
      match model with
      | some generate => askRemoteAttempt question notes generate modelName
      | none => (none, false)
    match remoteResult with
    | (some payload, called) => ⟨payload, called⟩
    | (none, called) =>
      let found := (_local_tag_search question notes 5).map (fun m => m.2)
      let response := _build_local_response found none
      let response :=
        if ¬ geminiKeySet then
          setdefaultMessage response
            (.str "Gemini answers unlock once GEMINI_API_KEY is configured.".toList)
        else if ¬ genaiInstalled then
          setdefaultMessage response
            (.str "Install google-generativeai to enable Gemini answers.".toList)
        else response
      ⟨response, called⟩

/-- The raw remote text of C4. -/
def c4RawText : List Char :=
  "Here is \x7b\"ids\":[3,5],\"answer\":\"ok\"\x7d done".toList

/-- Whether a text contains a run of at least 3 consecutive characters of
the class `wordClass` (the claim's notion of "containing a word of length at
least 3" for that character class). -/
def hasWordGe3 (wordClass : Char → Bool) (s : List Char) : Bool :=
  (pysplit (fun c => !wordClass c) s).any (fun piece => 3 ≤ piece.length)

/-- A tag as produced by the engine's tag generators: nonempty and made of
word characters only. -/
def goodTag (t : List Char) : Prop :=
  t ≠ [] ∧ ∀ c ∈ t, isWordChar c = true

/-- A tag as stored by the serializer: nonempty, free of commas and
whitespace. -/
def cleanTag (t : List Char) : Prop :=
  t ≠ [] ∧ ∀ c ∈ t, c ≠ ',' ∧ isSpaceChar c = false

/-- The merged tag list that `ensure_tags` hands to `_serialize_tags`. -/
def mergedTags (note : PyNote) (remoteText : Option (List Char)) : List (List Char) :=
  _title_tokens note ++
    (_generate_tags note remoteText).filter (fun tag => tag ∉ _title_tokens note)

end Vault

namespace Vault

/-! ### Helper lemmas about `_normalize_token` -/

theorem normalize_of_ies (u : List Char) (h : 2 ≤ u.length) :
    _normalize_token (u ++ ['i', 'e', 's']) = u ++ ['y'] := by
  unfold _normalize_token
  rw [if_pos]
  · have hl : (u ++ ['i', 'e', 's']).length - 3 = u.length := by simp
    rw [hl, List.take_left]
  · refine ⟨⟨u, rfl⟩, ?_⟩
    simp
    omega

theorem normalize_noies_of_s (u : List Char)
    (h1 : ¬(['i', 'e', 's'] <:+ u ++ ['s'] ∧ (u ++ ['s']).length > 4))
    (h : 3 ≤ u.length) :
    _normalize_token (u ++ ['s']) = u := by
  unfold _normalize_token
  rw [if_neg h1, if_pos]
  · have hl : (u ++ ['s']).length - 1 = u.length := by simp
    rw [hl, List.take_left]
  · refine ⟨⟨u, rfl⟩, ?_⟩
    simp
    omega

theorem not_suffix_concat_of_ne {c d : Char} (hne : c ≠ d) (l u : List Char) :
    ¬ (l ++ [c]) <:+ (u ++ [d]) := by
  intro hs
  have h2 : (l ++ [c]).reverse <+: (u ++ [d]).reverse := List.reverse_prefix.mpr hs
  simp only [List.reverse_append, List.reverse_cons, List.reverse_nil, List.nil_append,
    List.singleton_append, List.cons_prefix_cons] at h2
  exact hne h2.1

theorem normalize_fix_concat_y (u : List Char) :
    _normalize_token (u ++ ['y']) = u ++ ['y'] := by
  unfold _normalize_token
  rw [if_neg, if_neg]
  · rintro ⟨hs, -⟩
    exact not_suffix_concat_of_ne (by decide) [] u hs
  · rintro ⟨hs, -⟩
    exact not_suffix_concat_of_ne (c := 's') (d := 'y') (by decide) ['i', 'e'] u hs

/-- C2 counterexample input: "aaiess" normalizes to "aaies", which is not a
fixed point of the normalizer. -/
theorem C2_normalize_not_idempotent_counterexample :
    _normalize_token (_normalize_token "aaiess".toList) ≠ _normalize_token "aaiess".toList := by
  decide

/-- C2 (amended): the token normalizer is idempotent on every token except
those of length at least 5 that end in a double "s" (for such tokens the
"s"-stripping rule exposes a suffix on which a rule fires again). -/
theorem C2_normalize_idempotent_amended (t : List Char)
    (h : ¬(['s', 's'] <:+ t ∧ 5 ≤ t.length)) :
    _normalize_token (_normalize_token t) = _normalize_token t := by
  by_cases h1 : ['i', 'e', 's'] <:+ t ∧ t.length > 4
  · obtain ⟨hsuf, hlen⟩ := h1
    obtain ⟨u, rfl⟩ := hsuf
    have hu : 2 ≤ u.length := by
      simp only [List.length_append, List.length_cons, List.length_nil] at hlen
      omega
    rw [normalize_of_ies u hu, normalize_fix_concat_y]
  · by_cases h2 : ['s'] <:+ t ∧ t.length > 3
    · obtain ⟨hsuf, hlen⟩ := h2
      obtain ⟨u, rfl⟩ := hsuf
      have hu3 : 3 ≤ u.length := by
        simp only [List.length_append, List.length_cons, List.length_nil] at hlen
        omega
      rw [normalize_noies_of_s u h1 hu3]
      unfold _normalize_token
      rw [if_neg, if_neg]
      · rintro ⟨⟨v, rfl⟩, hl4⟩
        refine h ⟨⟨v, by simp⟩, ?_⟩
        simp only [List.length_append, List.length_cons, List.length_nil] at hl4 ⊢
        omega
      · rintro ⟨⟨v, rfl⟩, hl5⟩
        refine h ⟨⟨v ++ ['i', 'e'], by simp⟩, ?_⟩
        simp only [List.length_append, List.length_cons, List.length_nil] at hl5 ⊢
        omega
    · have hfix : _normalize_token t = t := by
        unfold _normalize_token
        rw [if_neg h1, if_neg h2]
      rw [hfix, hfix]

/-- Witness for the amended C2 at the concrete token "cats". -/
theorem C2_normalize_idempotent_amended_witness :
    _normalize_token (_normalize_token "cats".toList) = _normalize_token "cats".toList :=
  C2_normalize_idempotent_amended "cats".toList (by decide)

end Vault

namespace Vault

/-- C1: for every vault state and every configuration, asking a blank
(empty or whitespace-only) question returns exactly
`{status: "error", message: "Ask a question before invoking Memory."}`.
The right-hand side is one constant for every `model` argument, so the
result does not depend on the Remote Model Client, and `remoteCalled` is
`false`: the client is never invoked. -/
theorem C1_blank_question_errors_without_remote (question : List Char)
    (notes : List PyNote) (model : Option (List Char → Except (List Char) (List Char)))
    (geminiKeySet genaiInstalled : Bool) (modelName : List Char)
    (h : strip question = []) :
    ask question notes model geminiKeySet genaiInstalled modelName =
      ⟨⟨"error".toList, none, none,
        some (.str "Ask a question before invoking Memory.".toList)⟩, false⟩ := by
  unfold ask
  rw [h]
  rfl

/-- Witness for C1 at a whitespace-only question against a nonempty vault
with a configured remote client. -/
theorem C1_blank_question_errors_without_remote_witness :
    ask "  \t ".toList [⟨1, "Groceries".toList, "milk".toList, "milk".toList⟩]
        (some (fun _ => .ok "\x7b\"ids\":[1],\"answer\":\"hi\"\x7d".toList)) true true
        "gemini-2.5-flash".toList =
      ⟨⟨"error".toList, none, none,
        some (.str "Ask a question before invoking Memory.".toList)⟩, false⟩ :=
  C1_blank_question_errors_without_remote _ _ _ _ _ _ (by decide)

/-- C4: on the raw text `Here is {"ids":[3,5],"answer":"ok"} done`, the
direct decode of the whole trimmed text fails, the first top-level brace
span is found and decoded, and the resulting `RemoteSelection` carries
`ids = [3, 5]` and `answer = "ok"`. -/
theorem C4_parse_embedded_json_span :
    json_loads (strip c4RawText) = none ∧
      findBraceSpan (strip c4RawText) =
        some "\x7b\"ids\":[3,5],\"answer\":\"ok\"\x7d".toList ∧
      parseRemoteReply c4RawText =
        .ok ⟨[3, 5], some (.str "ok".toList), none⟩ :=
  ⟨rfl, rfl, rfl⟩

/-- Every stem produced by a single application of `_normalize_token` to a
token of length at least 3 still has length at least 3: the "ies" rule fires
only above length 4 and removes two characters, the "s" rule only above
length 3 and removes one. -/
theorem normalize_token_length_ge_three (t : List Char) (h : 3 ≤ t.length) :
    3 ≤ (_normalize_token t).length := by
  unfold _normalize_token
  split
  · rename_i hc
    simp only [List.length_append, List.length_take, List.length_cons, List.length_nil]
    omega
  · split
    · rename_i hc
      simp only [List.length_take]
      omega
    · exact h

/-- C9: every stem in the set returned by `_tokenize` has length at least 3:
the length-3 filter runs on raw tokens before normalization, and the suffix
rules never shorten a kept token below 3 characters. -/
theorem C9_tokenize_stems_length_ge_three (text : List Char) (s : List Char)
    (hs : s ∈ _tokenize text) : 3 ≤ s.length := by
  unfold _tokenize at hs
  rw [List.mem_toFinset] at hs
  obtain ⟨raw, hraw, rfl⟩ := List.mem_map.mp hs
  have h3 : 3 ≤ raw.length := by
    have := (List.mem_filter.mp hraw).2
    exact of_decide_eq_true this
  exact normalize_token_length_ge_three raw h3

/-- Witness for C9: the stem "cat" of the text "cats!". -/
theorem C9_tokenize_stems_length_ge_three_witness :
    3 ≤ "cat".toList.length :=
  C9_tokenize_stems_length_ge_three "cats!".toList "cat".toList (by decide)

end Vault

namespace Vault

/-- An infix of the right part of an append is an infix of the whole. -/
theorem infix_append_right {x B : List Char} (h : x <:+: B) (A : List Char) :
    x <:+: A ++ B :=
  h.trans (List.suffix_append A B).isInfix

/-- C7: the friendly error mapping is a total function over exception text —
every branch produces a message (each mentioning local recall) — and when
the text contains both "not found" and "models/", the message contains the
configured model name and the phrase stating that local recall is shown
instead. -/
theorem C7_friendly_error_total_and_model_message (modelName excText : List Char) :
    ("local recall".toList <:+: _friendly_error_message modelName excText) ∧
      ("not found".toList <:+: excText → "models/".toList <:+: excText →
        (modelName <:+: _friendly_error_message modelName excText) ∧
          ("Showing local recall instead.".toList <:+:
            _friendly_error_message modelName excText)) := by
  unfold _friendly_error_message
  by_cases hc : ("not found".toList <:+: excText ∧ "models/".toList <:+: excText)
  · rw [if_pos hc]
    constructor
    · have h1 : "local recall".toList <:+:
          "). Update GEMINI_MODEL_NAME or switch to `gemini-2.5-flash-lite`. Showing local recall instead.".toList :=
        ⟨"). Update GEMINI_MODEL_NAME or switch to `gemini-2.5-flash-lite`. Showing ".toList,
          " instead.".toList, by decide⟩
      rw [List.append_assoc]
      exact infix_append_right (infix_append_right h1 modelName) _
    · intro _ _
      refine ⟨⟨_, _, rfl⟩, ?_⟩
      have h2 : "Showing local recall instead.".toList <:+:
          "). Update GEMINI_MODEL_NAME or switch to `gemini-2.5-flash-lite`. Showing local recall instead.".toList :=
        ⟨"). Update GEMINI_MODEL_NAME or switch to `gemini-2.5-flash-lite`. ".toList,
          [], by decide⟩
      rw [List.append_assoc]
      exact infix_append_right (infix_append_right h2 modelName) _
  · rw [if_neg hc]
    refine ⟨?_, fun h1 h2 => absurd ⟨h1, h2⟩ hc⟩
    by_cases hc2 : ("API key".toList <:+: excText ∨ "permission".toList <:+: lower excText)
    · rw [if_pos hc2]
      exact ⟨"Gemini rejected the request. Double-check GEMINI_API_KEY permissions. Showing ".toList,
        " instead.".toList, by decide⟩
    · rw [if_neg hc2]
      exact ⟨"Gemini was unavailable, so Memory shared ".toList, " instead.".toList, by decide⟩

/-- Witness for C7 at the exception text of a missing-model error. -/
theorem C7_friendly_error_total_and_model_message_witness :
    ("gemini-2.5-flash".toList <:+:
        _friendly_error_message "gemini-2.5-flash".toList
          "404 models/gemini-x is not found".toList) ∧
      ("Showing local recall instead.".toList <:+:
        _friendly_error_message "gemini-2.5-flash".toList
          "404 models/gemini-x is not found".toList) :=
  (C7_friendly_error_total_and_model_message "gemini-2.5-flash".toList
      "404 models/gemini-x is not found".toList).2 (by decide) (by decide)

end Vault

namespace Vault

/-- C5 counterexample: the note titled "a_b" contains no alphanumeric word
of length at least 3 (its alphanumeric runs are "a" and "b"), yet the
fallback returns the tag "a_b" — the regex word class `\W` keeps
underscores — not ["note"]. -/
theorem C5_counterexample_underscore :
    hasWordGe3 Char.isAlphanum (lower ("a_b".toList ++ [' '] ++ ([] : List Char))) = false ∧
      _fallback_tags ⟨1, "a_b".toList, [], []⟩ ≠ ["note".toList] := by
  decide

/-- C5 (amended): for every note whose title and content together contain no
word-character run (letter, digit, or underscore) of length at least 3, the
local tag-generation fallback returns exactly the single tag "note". -/
theorem C5_no_words_fallback_note_amended (note : PyNote)
    (h : hasWordGe3 isWordChar (lower (note.title ++ [' '] ++ note.content)) = false) :
    _fallback_tags note = ["note".toList] := by
  have htok : fallbackTokens note = [] := by
    unfold fallbackTokens splitWords
    rw [List.filter_eq_nil_iff]
    intro a ha
    unfold hasWordGe3 at h
    have := List.any_eq_false.mp h a ha
    simpa using this
  unfold _fallback_tags
  rw [htok]
  rfl

/-- Witness for the amended C5 at a note made only of punctuation and short
words. -/
theorem C5_no_words_fallback_note_amended_witness :
    _fallback_tags ⟨7, "a!".toList, "?? ok".toList, []⟩ = ["note".toList] :=
  C5_no_words_fallback_note_amended ⟨7, "a!".toList, "?? ok".toList, []⟩ (by decide)

/-- The tags column written by `ensure_tags` depends only on the note's
title and content (and the remote reply), not on its previous tags. -/
theorem ensure_tags_tags_congr (n₁ n₂ : PyNote) (rt : Option (List Char))
    (ht : n₁.title = n₂.title) (hc : n₁.content = n₂.content) :
    (ensure_tags n₁ rt).tags = (ensure_tags n₂ rt).tags := by
  cases rt with
  | none =>
    simp only [ensure_tags, _generate_tags, _fallback_tags, fallbackTokens, _title_tokens,
      ht, hc]
  | some text =>
    simp only [ensure_tags, _generate_tags, _fallback_tags, fallbackTokens, _title_tokens,
      ht, hc]

/-- C8: with no remote model (local fallback only), running `ensure_tags`
twice on a note whose title and content are unchanged persists the same
TagSet both times. -/
theorem C8_ensure_tags_local_idempotent (note : PyNote) :
    _split_tags ((ensure_tags (ensure_tags note none) none).tags) =
      _split_tags ((ensure_tags note none).tags) := by
  rw [ensure_tags_tags_congr (ensure_tags note none) note none rfl rfl]

end Vault

namespace Vault

/-! ### Character-class lemmas -/

theorem charToNat_bounds_of_isUpper {c : Char} (h : c.isUpper = true) :
    65 ≤ c.toNat ∧ c.toNat ≤ 90 := by
  unfold Char.isUpper at h
  rw [Bool.and_eq_true] at h
  obtain ⟨h1, h2⟩ := h
  rw [decide_eq_true_eq] at h1 h2
  exact ⟨UInt32.le_toNat_of_le (by decide) h1, UInt32.toNat_le_of_le (by decide) h2⟩

theorem charToNat_bounds_of_isLower {c : Char} (h : c.isLower = true) :
    97 ≤ c.toNat ∧ c.toNat ≤ 122 := by
  unfold Char.isLower at h
  rw [Bool.and_eq_true] at h
  obtain ⟨h1, h2⟩ := h
  rw [decide_eq_true_eq] at h1 h2
  exact ⟨UInt32.le_toNat_of_le (by decide) h1, UInt32.toNat_le_of_le (by decide) h2⟩

theorem charToNat_bounds_of_isDigit {c : Char} (h : c.isDigit = true) :
    48 ≤ c.toNat ∧ c.toNat ≤ 57 := by
  unfold Char.isDigit at h
  rw [Bool.and_eq_true] at h
  obtain ⟨h1, h2⟩ := h
  rw [decide_eq_true_eq] at h1 h2
  exact ⟨UInt32.le_toNat_of_le (by decide) h1, UInt32.toNat_le_of_le (by decide) h2⟩

theorem wordChar_toNat_facts {c : Char} (h : isWordChar c = true) :
    (65 ≤ c.toNat ∧ c.toNat ≤ 90) ∨ (97 ≤ c.toNat ∧ c.toNat ≤ 122) ∨
      (48 ≤ c.toNat ∧ c.toNat ≤ 57) ∨ c.toNat = 95 := by
  unfold isWordChar Char.isAlphanum Char.isAlpha at h
  simp only [Bool.or_eq_true, decide_eq_true_eq] at h
  rcases h with ((h | h) | h) | h
  · exact Or.inl (charToNat_bounds_of_isUpper h)
  · exact Or.inr (Or.inl (charToNat_bounds_of_isLower h))
  · exact Or.inr (Or.inr (Or.inl (charToNat_bounds_of_isDigit h)))
  · subst h; right; right; right; rfl

theorem uint32_ofNat_le_of_le_toNat {n : UInt32} {m : Nat} (hm : m < UInt32.size)
    (h : m ≤ n.toNat) : UInt32.ofNat m ≤ n := by
  rw [UInt32.le_def, BitVec.le_def, UInt32.toBitVec_eq_of_lt hm]
  exact h

theorem uint32_le_ofNat_of_toNat_le {n : UInt32} {m : Nat} (hm : m < UInt32.size)
    (h : n.toNat ≤ m) : n ≤ UInt32.ofNat m := by
  rw [UInt32.le_def, BitVec.le_def, UInt32.toBitVec_eq_of_lt hm]
  exact h

theorem toLower_eq_self_of_not_upper {c : Char} (h : ¬(65 ≤ c.toNat ∧ c.toNat ≤ 90)) :
    c.toLower = c := by
  unfold Char.toLower
  rw [if_neg]
  intro hc
  exact h ⟨hc.1, hc.2⟩

theorem toNat_toLower_of_upper {c : Char} (h : 65 ≤ c.toNat ∧ c.toNat ≤ 90) :
    c.toLower.toNat = c.toNat + 32 := by
  unfold Char.toLower
  rw [if_pos ⟨h.1, h.2⟩]
  have hv : (c.toNat + 32).isValidChar := Or.inl (by omega)
  rw [Char.ofNat, dif_pos hv]
  rfl

theorem isLower_of_toNat_bounds {c : Char} (h1 : 97 ≤ c.toNat) (h2 : c.toNat ≤ 122) :
    c.isLower = true := by
  unfold Char.isLower
  rw [Bool.and_eq_true, decide_eq_true_eq, decide_eq_true_eq]
  exact ⟨uint32_ofNat_le_of_le_toNat (by decide) h1, uint32_le_ofNat_of_toNat_le (by decide) h2⟩

theorem isWordChar_toLower {c : Char} (h : isWordChar c = true) :
    isWordChar c.toLower = true := by
  rcases wordChar_toNat_facts h with hu | hrest
  · have hl := toNat_toLower_of_upper hu
    have := isLower_of_toNat_bounds (c := c.toLower) (by omega) (by omega)
    unfold isWordChar Char.isAlphanum Char.isAlpha
    simp [this]
  · rw [toLower_eq_self_of_not_upper (by omega)]
    exact h

theorem wordChar_toNat_ge_48 {c : Char} (h : isWordChar c = true) : 48 ≤ c.toNat := by
  rcases wordChar_toNat_facts h with hu | hl | hd | he <;> omega

theorem not_space_of_toNat_ge_48 {c : Char} (h : 48 ≤ c.toNat) : isSpaceChar c = false := by
  cases hsp : isSpaceChar c with
  | false => rfl
  | true =>
    exfalso
    unfold isSpaceChar at hsp
    simp only [Bool.or_eq_true, decide_eq_true_eq] at hsp
    rcases hsp with ((((h1 | h1) | h1) | h1) | h1) | h1 <;> subst h1 <;> exact absurd h (by decide)

theorem ne_comma_of_toNat_ge_48 {c : Char} (h : 48 ≤ c.toNat) : c ≠ ',' := by
  rintro rfl
  exact absurd h (by decide)

end Vault

namespace Vault

/-! ### Tag serialization invariants -/

theorem dropWhile_eq_self_of_none {p : Char → Bool} {t : List Char}
    (h : ∀ c ∈ t, p c = false) : t.dropWhile p = t := by
  cases t with
  | nil => rfl
  | cons c rest =>
    rw [List.dropWhile_cons, if_neg]
    simp [h c (List.mem_cons_self c rest)]

theorem strip_eq_self_of_no_space {t : List Char}
    (h : ∀ c ∈ t, isSpaceChar c = false) : strip t = t := by
  unfold strip
  rw [dropWhile_eq_self_of_none h, dropWhile_eq_self_of_none, List.reverse_reverse]
  intro c hc
  exact h c (List.mem_reverse.mp hc)

theorem goodTag_space_free {t : List Char} (h : goodTag t) :
    ∀ c ∈ t, isSpaceChar c = false :=
  fun c hc => not_space_of_toNat_ge_48 (wordChar_toNat_ge_48 (h.2 c hc))

theorem goodTag_lower {t : List Char} (h : goodTag t) : goodTag (lower t) := by
  constructor
  · simpa [lower, List.map_eq_nil_iff] using h.1
  · intro c hc
    obtain ⟨c₀, hc₀, rfl⟩ := List.mem_map.mp hc
    exact isWordChar_toLower (h.2 c₀ hc₀)

theorem cleanTag_of_good {t : List Char} (h : goodTag t) : cleanTag t := by
  refine ⟨h.1, fun c hc => ?_⟩
  have h48 := wordChar_toNat_ge_48 (h.2 c hc)
  exact ⟨ne_comma_of_toNat_ge_48 h48, not_space_of_toNat_ge_48 h48⟩

theorem serializeStep_good (cleaned : List (List Char)) {tag : List Char} (h : goodTag tag) :
    serializeStep cleaned tag =
      if lower tag ∈ cleaned then cleaned else cleaned ++ [lower tag] := by
  have hlg : goodTag (lower tag) := goodTag_lower h
  have hnospace : ¬ ' ' ∈ lower tag := by
    intro hsp
    have := goodTag_space_free hlg ' ' hsp
    simp [isSpaceChar] at this
  simp only [serializeStep, strip_eq_self_of_no_space (goodTag_space_free h)]
  have hin : (if lower tag = [] ∨ ' ' ∈ lower tag then
      (lower tag).filter (fun c => c ≠ ' ') else lower tag) = lower tag := by
    rw [if_neg]
    rintro (hnil | hsp)
    · exact hlg.1 hnil
    · exact hnospace hsp
  rw [hin]
  by_cases hmem : lower tag ∈ cleaned
  · simp [hmem]
  · simp [hmem, hlg.1]

theorem serialize_foldl_invariant (tags : List (List Char)) (acc : List (List Char))
    (hacc : acc.Nodup ∧ ∀ t ∈ acc, cleanTag t) (htags : ∀ t ∈ tags, goodTag t) :
    (tags.foldl serializeStep acc).Nodup ∧
      ∀ t ∈ tags.foldl serializeStep acc, cleanTag t := by
  induction tags generalizing acc with
  | nil => simpa using hacc
  | cons tag rest ih =>
    rw [List.foldl_cons]
    refine ih (serializeStep acc tag) ?_ (fun t ht => htags t (List.mem_cons_of_mem _ ht))
    have hg := htags tag (List.mem_cons_self tag rest)
    rw [serializeStep_good acc hg]
    by_cases hmem : lower tag ∈ acc
    · rw [if_pos hmem]
      exact hacc
    · rw [if_neg hmem]
      constructor
      · simp [List.nodup_append, hacc.1, hmem]
      · intro t ht
        rcases List.mem_append.mp ht with h1 | h1
        · exact hacc.2 t h1
        · rw [List.mem_singleton] at h1
          subst h1
          exact cleanTag_of_good (goodTag_lower hg)

theorem foldl_serializeStep_prefix (tags : List (List Char)) (acc : List (List Char)) :
    acc <+: tags.foldl serializeStep acc := by
  induction tags generalizing acc with
  | nil => exact List.prefix_rfl
  | cons tag rest ih =>
    rw [List.foldl_cons]
    refine List.IsPrefix.trans ?_ (ih (serializeStep acc tag))
    simp only [serializeStep]
    split <;> split <;> first
      | exact List.prefix_append _ _
      | exact List.prefix_rfl

end Vault

namespace Vault

/-! ### `pysplit`/`pyjoin` lemmas and the tags round trip -/

theorem pysplit_no_sep {sep : Char → Bool} {a : List Char}
    (h : ∀ c ∈ a, sep c = false) : pysplit sep a = [a] := by
  induction a with
  | nil => rfl
  | cons c rest ih =>
    unfold pysplit
    rw [if_neg (by simp [h c (List.mem_cons_self c rest)])]
    rw [ih (fun d hd => h d (List.mem_cons_of_mem _ hd))]

theorem pysplit_cons (sep : Char → Bool) (c : Char) (rest : List Char) :
    pysplit sep (c :: rest) =
      if sep c then [] :: pysplit sep rest
      else
        match pysplit sep rest with
        | [] => [[c]]
        | piece :: more => (c :: piece) :: more := rfl

theorem pysplit_append_sep {sep : Char → Bool} {a : List Char}
    (h : ∀ c ∈ a, sep c = false) {c₀ : Char} (hc : sep c₀ = true) (rest : List Char) :
    pysplit sep (a ++ c₀ :: rest) = a :: pysplit sep rest := by
  induction a with
  | nil =>
    simp only [List.nil_append]
    rw [pysplit_cons, if_pos hc]
  | cons c a' ih =>
    rw [List.cons_append, pysplit_cons, if_neg (by simp [h c (List.mem_cons_self c a')]),
      ih (fun d hd => h d (List.mem_cons_of_mem _ hd))]

theorem pysplit_pieces_no_sep {sep : Char → Bool} :
    ∀ {s piece : List Char}, piece ∈ pysplit sep s → ∀ c ∈ piece, sep c = false := by
  intro s
  induction s with
  | nil =>
    intro piece hp
    simp only [pysplit, List.mem_singleton] at hp
    subst hp
    simp
  | cons c rest ih =>
    intro piece hp
    unfold pysplit at hp
    by_cases hc : sep c = true
    · rw [if_pos hc] at hp
      rcases List.mem_cons.mp hp with rfl | hp2
      · simp
      · exact ih hp2
    · rw [if_neg hc] at hp
      cases hps : pysplit sep rest with
      | nil =>
        rw [hps] at hp
        simp only [List.mem_singleton] at hp
        subst hp
        intro d hd
        rcases List.mem_cons.mp hd with rfl | hd2
        · simpa using hc
        · simp at hd2
      | cons p m =>
        rw [hps] at hp
        rcases List.mem_cons.mp hp with rfl | hp2
        · intro d hd
          rcases List.mem_cons.mp hd with rfl | hd2
          · simpa using hc
          · exact ih (hps ▸ List.mem_cons_self p m) d hd2
        · exact ih (hps ▸ List.mem_cons_of_mem p hp2)

theorem pyjoin_comma_ne_nil {t : List Char} (ht : t ≠ []) (ts : List (List Char)) :
    pyjoin [','] (t :: ts) ≠ [] := by
  cases ts with
  | nil => simpa [pyjoin] using ht
  | cons t₂ ts₂ => simp [pyjoin]

theorem split_tags_pyjoin (l : List (List Char)) (h : ∀ t ∈ l, cleanTag t) :
    _split_tags (pyjoin [','] l) = l := by
  induction l with
  | nil => rfl
  | cons t ts ih =>
    have hct := h t (List.mem_cons_self t ts)
    have hsep : ∀ c ∈ t, decide (c = ',') = false := fun c hc =>
      decide_eq_false (hct.2 c hc).1
    have hstrip : strip t = t := strip_eq_self_of_no_space (fun c hc => (hct.2 c hc).2)
    cases ts with
    | nil =>
      show _split_tags t = [t]
      unfold _split_tags
      rw [if_neg hct.1, pysplit_no_sep hsep]
      simp [List.filterMap_cons, hct.1, hstrip]
    | cons t₂ ts₂ =>
      have hexp : pyjoin [','] (t :: t₂ :: ts₂) = t ++ ',' :: pyjoin [','] (t₂ :: ts₂) := by
        show t ++ [','] ++ pyjoin [','] (t₂ :: ts₂) = _
        rw [List.append_assoc]
        rfl
      have hrest := ih (fun u hu => h u (List.mem_cons_of_mem t hu))
      have ht₂ := h t₂ (List.mem_cons_of_mem t (List.mem_cons_self t₂ ts₂))
      unfold _split_tags at hrest ⊢
      rw [if_neg (pyjoin_comma_ne_nil ht₂.1 ts₂)] at hrest
      rw [hexp, if_neg (by simp [hct.1]), pysplit_append_sep hsep (by simp) _,
        List.filterMap_cons]
      simp only [hstrip, hct.1, ne_eq, not_false_iff, true_and, if_pos]
      rw [hrest]

end Vault

namespace Vault

/-! ### Stable descending sort lemmas -/

theorem insertDesc_perm (key : α → Nat) (x : α) (l : List α) :
    List.Perm (insertDesc key x l) (x :: l) := by
  induction l with
  | nil => exact List.Perm.refl _
  | cons y ys ih =>
    unfold insertDesc
    by_cases h : key x < key y
    · rw [if_pos h]
      exact (ih.cons y).trans (List.Perm.swap x y ys)
    · rw [if_neg h]

theorem sortDesc_perm (key : α → Nat) (l : List α) : List.Perm (sortDesc key l) l := by
  induction l with
  | nil => exact List.Perm.refl _
  | cons x xs ih => exact (insertDesc_perm key x (sortDesc key xs)).trans (ih.cons x)

theorem insertDesc_pairwise (key : α → Nat) (x : α) {l : List α}
    (h : l.Pairwise (fun a b => key b ≤ key a)) :
    (insertDesc key x l).Pairwise (fun a b => key b ≤ key a) := by
  induction l with
  | nil => simp [insertDesc]
  | cons y ys ih =>
    rw [List.pairwise_cons] at h
    obtain ⟨hy, hys⟩ := h
    unfold insertDesc
    by_cases hxy : key x < key y
    · rw [if_pos hxy]
      rw [List.pairwise_cons]
      refine ⟨fun z hz => ?_, ih hys⟩
      rcases List.mem_cons.mp ((insertDesc_perm key x ys).subset hz) with rfl | hz2
      · omega
      · exact hy z hz2
    · rw [if_neg hxy]
      rw [List.pairwise_cons]
      refine ⟨fun z hz => ?_, List.pairwise_cons.mpr ⟨hy, hys⟩⟩
      rcases List.mem_cons.mp hz with rfl | hz2
      · omega
      · have := hy z hz2
        omega

theorem sortDesc_pairwise (key : α → Nat) (l : List α) :
    (sortDesc key l).Pairwise (fun a b => key b ≤ key a) := by
  induction l with
  | nil => simp [sortDesc]
  | cons x xs ih => exact insertDesc_pairwise key x ih

theorem insertDesc_filter_eq (key : α → Nat) (x : α) (l : List α) :
    (insertDesc key x l).filter (fun y => key y = key x) =
      x :: l.filter (fun y => key y = key x) := by
  induction l with
  | nil => simp [insertDesc]
  | cons y ys ih =>
    unfold insertDesc
    by_cases hxy : key x < key y
    · rw [if_pos hxy]
      rw [List.filter_cons_of_neg (by simp; omega), ih,
        List.filter_cons_of_neg (by simp; omega)]
    · rw [if_neg hxy]
      rw [List.filter_cons_of_pos (by simp)]

theorem insertDesc_filter_ne (key : α → Nat) (x : α) {s : Nat} (hs : key x ≠ s)
    (l : List α) :
    (insertDesc key x l).filter (fun y => key y = s) =
      l.filter (fun y => key y = s) := by
  induction l with
  | nil => simp [insertDesc, hs]
  | cons y ys ih =>
    unfold insertDesc
    by_cases hxy : key x < key y
    · rw [if_pos hxy]
      by_cases hy : key y = s
      · rw [List.filter_cons_of_pos (by simpa using hy), ih,
          List.filter_cons_of_pos (by simpa using hy)]
      · rw [List.filter_cons_of_neg (by simpa using hy), ih,
          List.filter_cons_of_neg (by simpa using hy)]
    · rw [if_neg hxy]
      rw [List.filter_cons_of_neg (by simpa using hs)]

theorem sortDesc_filter (key : α → Nat) (l : List α) (s : Nat) :
    (sortDesc key l).filter (fun y => key y = s) = l.filter (fun y => key y = s) := by
  induction l with
  | nil => rfl
  | cons x xs ih =>
    show (insertDesc key x (sortDesc key xs)).filter _ = _
    by_cases hs : key x = s
    · subst hs
      rw [insertDesc_filter_eq, ih, List.filter_cons_of_pos (by simp)]
    · rw [insertDesc_filter_ne key x hs, ih, List.filter_cons_of_neg (by simpa using hs)]

end Vault

namespace Vault

/-! ### The tags produced by every generator are nonempty word-character
tokens -/

theorem isWordChar_of_isLowerAlnum {c : Char} (h : isLowerAlnumChar c = true) :
    isWordChar c = true := by
  unfold isLowerAlnumChar at h
  unfold isWordChar Char.isAlphanum Char.isAlpha
  simp only [Bool.or_eq_true] at h ⊢
  tauto

theorem titleTokenStep_good {acc : List (List Char)} (hacc : ∀ t ∈ acc, goodTag t)
    (raw : List Char) : ∀ t ∈ titleTokenStep acc raw, goodTag t := by
  intro t ht
  simp only [titleTokenStep] at ht
  split at ht
  · exact hacc t ht
  · split at ht
    · exact hacc t ht
    · rename_i hlen _
      rcases List.mem_append.mp ht with h1 | h1
      · exact hacc t h1
      · rw [List.mem_singleton] at h1
        subst h1
        refine ⟨by rw [← List.length_pos_iff_ne_nil]; omega, fun c hc => ?_⟩
        exact isWordChar_of_isLowerAlnum (List.of_mem_filter hc)

theorem foldl_titleTokenStep_good (pieces : List (List Char)) (acc : List (List Char))
    (hacc : ∀ t ∈ acc, goodTag t) : ∀ t ∈ pieces.foldl titleTokenStep acc, goodTag t := by
  induction pieces generalizing acc with
  | nil => simpa using hacc
  | cons raw rest ih =>
    rw [List.foldl_cons]
    exact ih _ (titleTokenStep_good hacc raw)

theorem title_tokens_good (note : PyNote) : ∀ t ∈ _title_tokens note, goodTag t := by
  intro t ht
  simp only [_title_tokens] at ht
  split at ht
  · simp at ht
  · exact foldl_titleTokenStep_good _ [] (by simp) t (List.take_subset 5 _ ht)

theorem sanitize_tag_good {value t : List Char} (h : _sanitize_tag value = some t) :
    goodTag t := by
  simp only [_sanitize_tag] at h
  split at h
  · exact absurd h (by simp)
  · rename_i hlen
    rw [Option.some_inj] at h
    subst h
    refine ⟨by rw [← List.length_pos_iff_ne_nil]; omega, fun c hc => ?_⟩
    exact isWordChar_of_isLowerAlnum (List.of_mem_filter hc)

theorem extract_tags_good (text : List Char) : ∀ t ∈ _extract_tags text, goodTag t := by
  intro t ht
  simp only [_extract_tags] at ht
  obtain ⟨part, -, hpart⟩ := List.mem_filterMap.mp (List.take_subset 5 _ ht)
  exact sanitize_tag_good hpart

theorem firstOccurAux_subset (seen : List (List Char)) :
    ∀ {l : List (List Char)} {x : List Char}, x ∈ firstOccurAux seen l → x ∈ l := by
  intro l
  induction l generalizing seen with
  | nil =>
    intro x hx
    simp [firstOccurAux] at hx
  | cons y ys ih =>
    intro x hx
    unfold firstOccurAux at hx
    split at hx
    · exact List.mem_cons_of_mem y (ih seen hx)
    · rcases List.mem_cons.mp hx with rfl | hx2
      · exact List.mem_cons_self x ys
      · exact List.mem_cons_of_mem y (ih (seen ++ [y]) hx2)

theorem fallbackTokens_good (note : PyNote) : ∀ t ∈ fallbackTokens note, goodTag t := by
  intro t ht
  simp only [fallbackTokens, splitWords] at ht
  have hmem := List.mem_of_mem_filter ht
  have hlen : 3 ≤ t.length := of_decide_eq_true (List.mem_filter.mp ht).2
  refine ⟨by rw [← List.length_pos_iff_ne_nil]; omega, fun c hc => ?_⟩
  have := pysplit_pieces_no_sep hmem c hc
  simpa using this

theorem fallback_tags_good (note : PyNote) : ∀ t ∈ _fallback_tags note, goodTag t := by
  intro t ht
  simp only [_fallback_tags] at ht
  split at ht
  · rw [List.mem_singleton] at ht
    subst ht
    exact ⟨by simp, by decide⟩
  · have ht3 := (sortDesc_perm _ _).subset (List.take_subset 5 _ ht)
    exact fallbackTokens_good note t (firstOccurAux_subset [] ht3)

theorem generate_tags_good (note : PyNote) (rt : Option (List Char)) :
    ∀ t ∈ _generate_tags note rt, goodTag t := by
  intro t ht
  cases rt with
  | none => exact fallback_tags_good note t ht
  | some text =>
    simp only [_generate_tags] at ht
    split at ht
    · exact extract_tags_good text t ht
    · exact fallback_tags_good note t ht

theorem merged_tags_good (note : PyNote) (rt : Option (List Char)) :
    ∀ t ∈ _title_tokens note ++
        (_generate_tags note rt).filter (fun tag => tag ∉ _title_tokens note),
      goodTag t := by
  intro t ht
  rcases List.mem_append.mp ht with h1 | h1
  · exact title_tokens_good note t h1
  · exact generate_tags_good note rt t (List.mem_of_mem_filter h1)

end Vault

namespace Vault

theorem ensure_tags_tags_eq (note : PyNote) (remoteText : Option (List Char)) :
    (ensure_tags note remoteText).tags = _serialize_tags (mergedTags note remoteText) := rfl

theorem mergedTags_good (note : PyNote) (rt : Option (List Char)) :
    ∀ t ∈ mergedTags note rt, goodTag t :=
  merged_tags_good note rt

/-- C6: the TagSet persisted by `ensure_tags` — for every note and every
remote reply (or none) — has at most 5 tags, no duplicate tags, and no tag
containing whitespace. -/
theorem C6_persisted_tagset_invariants (note : PyNote) (remoteText : Option (List Char)) :
    (_split_tags ((ensure_tags note remoteText).tags)).length ≤ 5 ∧
      (_split_tags ((ensure_tags note remoteText).tags)).Nodup ∧
      ∀ t ∈ _split_tags ((ensure_tags note remoteText).tags), ∀ c ∈ t,
        isSpaceChar c = false := by
  have hinv := serialize_foldl_invariant (mergedTags note remoteText) []
    ⟨List.nodup_nil, by simp⟩ (mergedTags_good note remoteText)
  have hround : _split_tags (_serialize_tags (mergedTags note remoteText)) =
      ((mergedTags note remoteText).foldl serializeStep []).take 5 := by
    unfold _serialize_tags
    apply split_tags_pyjoin
    intro t ht
    exact hinv.2 t (List.take_subset 5 _ ht)
  rw [ensure_tags_tags_eq, hround]
  refine ⟨List.length_take_le 5 _, (List.take_sublist 5 _).nodup hinv.1, ?_⟩
  intro t ht c hc
  exact ((hinv.2 t (List.take_subset 5 _ ht)).2 c hc).2

theorem firstOccur_ne_nil {l : List (List Char)} (h : l ≠ []) : firstOccur l ≠ [] := by
  cases l with
  | nil => exact absurd rfl h
  | cons t ts =>
    unfold firstOccur firstOccurAux
    rw [if_neg (by simp)]
    simp

theorem fallback_tags_ne_nil (note : PyNote) : _fallback_tags note ≠ [] := by
  simp only [_fallback_tags]
  split
  · simp
  · rename_i htok
    rw [Ne, List.take_eq_nil_iff]
    rintro (h5 | hnil)
    · exact absurd h5 (by decide)
    · have hperm := sortDesc_perm (fun word => (fallbackTokens note).count word)
        (firstOccur (fallbackTokens note))
      rw [hnil] at hperm
      exact firstOccur_ne_nil htok hperm.symm.eq_nil

end Vault

namespace Vault

theorem generate_tags_ne_nil (note : PyNote) (rt : Option (List Char)) :
    _generate_tags note rt ≠ [] := by
  cases rt with
  | none => exact fallback_tags_ne_nil note
  | some text =>
    simp only [_generate_tags]
    split
    · assumption
    · exact fallback_tags_ne_nil note

theorem mergedTags_ne_nil (note : PyNote) (rt : Option (List Char)) :
    mergedTags note rt ≠ [] := by
  unfold mergedTags
  intro hnil
  rw [List.append_eq_nil] at hnil
  obtain ⟨htitle, hfilter⟩ := hnil
  rw [htitle] at hfilter
  rw [List.filter_eq_nil_iff] at hfilter
  have hgen := generate_tags_ne_nil note rt
  cases hg : _generate_tags note rt with
  | nil => exact hgen hg
  | cons t ts =>
    have := hfilter t (hg ▸ List.mem_cons_self t ts)
    simp at this

/-- C10: `ensure_tags` always persists a non-empty TagSet: the local
fallback yields at least one tag ("note" in the worst case), and the first
merged tag survives the serialization cleaning, so after `ensure_tags` a
note never has zero tags. -/
theorem C10_persisted_tagset_nonempty (note : PyNote) (remoteText : Option (List Char)) :
    _fallback_tags note ≠ [] ∧
      _split_tags ((ensure_tags note remoteText).tags) ≠ [] := by
  refine ⟨fallback_tags_ne_nil note, ?_⟩
  have hinv := serialize_foldl_invariant (mergedTags note remoteText) []
    ⟨List.nodup_nil, by simp⟩ (mergedTags_good note remoteText)
  have hround : _split_tags (_serialize_tags (mergedTags note remoteText)) =
      ((mergedTags note remoteText).foldl serializeStep []).take 5 := by
    unfold _serialize_tags
    apply split_tags_pyjoin
    intro t ht
    exact hinv.2 t (List.take_subset 5 _ ht)
  rw [ensure_tags_tags_eq, hround]
  have hfold : (mergedTags note remoteText).foldl serializeStep [] ≠ [] := by
    cases hm : mergedTags note remoteText with
    | nil => exact absurd hm (mergedTags_ne_nil note remoteText)
    | cons m rest =>
      rw [List.foldl_cons]
      have hgm : goodTag m := mergedTags_good note remoteText m (hm ▸ List.mem_cons_self m rest)
      have hstep : serializeStep [] m = [lower m] := by
        rw [serializeStep_good [] hgm, if_neg (by simp)]
        rfl
      rw [hstep]
      intro hnil
      obtain ⟨tail, htail⟩ := foldl_serializeStep_prefix rest [lower m]
      rw [hnil] at htail
      simp at htail
  rw [Ne, List.take_eq_nil_iff]
  rintro (h5 | hnil)
  · exact absurd h5 (by decide)
  · exact hfold hnil

end Vault

namespace Vault

/-- C3: the local search returns at most `limit` scored pairs (the source's
default call passes 5), sorted with the highest score first; for every
score class the returned pairs are a prefix of the match list in original
note order (stable ties); and every returned pair carries the nonzero
overlap score of its note — no zero-score note appears. -/
theorem C3_local_search_contract (question : List Char) (notes : List PyNote) (limit : Nat) :
    (_local_tag_search question notes limit).length ≤ limit ∧
      (_local_tag_search question notes limit).Pairwise (fun a b => b.1 ≤ a.1) ∧
      (∀ s : Nat, (_local_tag_search question notes limit).filter (fun p => p.1 = s) <+:
        (localMatches question notes).filter (fun p => p.1 = s)) ∧
      ∀ p ∈ _local_tag_search question notes limit,
        p.1 = (_tokenize question ∩ _tag_tokens p.2).card ∧ p.1 ≠ 0 := by
  simp only [_local_tag_search]
  split
  · exact ⟨by simp, by simp, fun s => by simp, by simp⟩
  · refine ⟨List.length_take_le limit _, ?_, ?_, ?_⟩
    · exact List.Pairwise.sublist (List.take_sublist limit _)
        (sortDesc_pairwise (fun m => m.1) (localMatches question notes))
    · intro s
      have hpre := List.IsPrefix.filter (fun p => p.1 = s)
        (List.take_prefix limit (sortDesc (fun m => m.1) (localMatches question notes)))
      rw [sortDesc_filter (fun m => m.1) (localMatches question notes) s] at hpre
      exact hpre
    · intro p hp
      have hp2 := (sortDesc_perm (fun m => m.1) (localMatches question notes)).subset
        (List.take_subset limit _ hp)
      obtain ⟨note, -, heq⟩ := List.mem_filterMap.mp hp2
      simp only [] at heq
      split at heq
      · rename_i hscore
        rw [Option.some_inj] at heq
        subst heq
        exact ⟨rfl, hscore⟩
      · exact absurd heq (by simp)

/-- Witness for C3 at the specification's own example: notes tagged
"milk,eggs" and "python" with the question "milk and eggs" — the first note
scores 2 and is returned, the second scores 0 and is excluded. -/
theorem C3_local_search_contract_witness :
    (2, (⟨1, [], [], "milk,eggs".toList⟩ : PyNote)).1 =
        (_tokenize "milk and eggs".toList ∩
          _tag_tokens ⟨1, [], [], "milk,eggs".toList⟩).card ∧
      (2, (⟨1, [], [], "milk,eggs".toList⟩ : PyNote)).1 ≠ 0 :=
  (C3_local_search_contract "milk and eggs".toList
      [⟨1, [], [], "milk,eggs".toList⟩, ⟨2, [], [], "python".toList⟩] 5).2.2.2
    (2, ⟨1, [], [], "milk,eggs".toList⟩) (by decide)

end Vault

namespace Vault

/-- Witness for C6 at a concrete note: the persisted TagSet of the
"Groceries" note satisfies the size bound, and its tag "groceries" has no
whitespace in any position. -/
theorem C6_persisted_tagset_invariants_witness :
    (_split_tags ((ensure_tags ⟨1, "Groceries".toList, "milk, eggs".toList, []⟩ none).tags)).length ≤ 5 ∧
      (_split_tags ((ensure_tags ⟨1, "Groceries".toList, "milk, eggs".toList, []⟩ none).tags)).Nodup ∧
      isSpaceChar 'g' = false :=
  ⟨(C6_persisted_tagset_invariants ⟨1, "Groceries".toList, "milk, eggs".toList, []⟩ none).1,
    (C6_persisted_tagset_invariants ⟨1, "Groceries".toList, "milk, eggs".toList, []⟩ none).2.1,
    (C6_persisted_tagset_invariants ⟨1, "Groceries".toList, "milk, eggs".toList, []⟩ none).2.2
      "groceries".toList (by decide) 'g' (by decide)⟩

/-- Witness for C10 at a punctuation-only note with no remote reply: even
there the persisted TagSet is nonempty. -/
theorem C10_persisted_tagset_nonempty_witness :
    _fallback_tags ⟨3, "!!".toList, "?".toList, []⟩ ≠ [] ∧
      _split_tags ((ensure_tags ⟨3, "!!".toList, "?".toList, []⟩ none).tags) ≠ [] :=
  C10_persisted_tagset_nonempty ⟨3, "!!".toList, "?".toList, []⟩ none

end Vault
